import Mathlib

/-!
Verification of the AIG class-list processor (`aig_processor.py`).

Strings are modelled as lists of character codes (`List Nat`); the helper `S`
converts a Lean string literal into this representation.  Only the ASCII
behaviour of Python's `str.strip`, `str.title`, `str.upper`, `str.lower`,
`str.split`, and `re.sub(r"\s+", " ", ·)` is modelled, which covers every
string the program manipulates.
-/

/-- Character codes of a string literal (ASCII in all inputs considered). -/
def S (s : String) : List Nat := s.data.map (fun c => c.toNat)

/-- Python `\s` / `str.strip` whitespace test, restricted to ASCII:
space (32), tab (9), LF (10), VT (11), FF (12), CR (13). -/
def isSp (c : Nat) : Bool := decide (c = 32 ∨ (9 ≤ c ∧ c ≤ 13))

/-- ASCII letter test (Python `str.isalpha` restricted to ASCII). -/
def isAlphaC (c : Nat) : Bool := decide ((65 ≤ c ∧ c ≤ 90) ∨ (97 ≤ c ∧ c ≤ 122))

/-- ASCII uppercasing of one character code. -/
def toUpperC (c : Nat) : Nat := if 97 ≤ c ∧ c ≤ 122 then c - 32 else c

/-- ASCII lowercasing of one character code. -/
def toLowerC (c : Nat) : Nat := if 65 ≤ c ∧ c ≤ 90 then c + 32 else c

/-- Python `str.upper` on the ASCII fragment. -/
def upperStr (s : List Nat) : List Nat := s.map toUpperC

/-- Python `str.lower` on the ASCII fragment. -/
def lowerStr (s : List Nat) : List Nat := s.map toLowerC

/-- Remove a trailing run of whitespace (the right half of `str.strip`). -/
def dropTrailWs (l : List Nat) : List Nat := (l.reverse.dropWhile isSp).reverse

/-- Python `str.strip`: drop leading and trailing whitespace. -/
def pstrip (l : List Nat) : List Nat := dropTrailWs (l.dropWhile isSp)

/-- Worker for `re.sub(r"\s+", " ", ·)`: `inRun` records whether the previous
character belonged to a whitespace run already replaced by a single space. -/
def collapseAux : Bool → List Nat → List Nat
  | _, [] => []
  | inRun, c :: cs =>
    if isSp c then
      if inRun then collapseAux true cs else 32 :: collapseAux true cs
    else c :: collapseAux false cs

/-- `re.sub(r"\s+", " ", s)`: every whitespace run becomes one space. -/
def collapseWs (l : List Nat) : List Nat := collapseAux false l

/-- One step of Python `str.title`: `prev` records whether the previous
character was a letter. -/
def titleChar (prev : Bool) (c : Nat) : Nat :=
  if isAlphaC c then (if prev then toLowerC c else toUpperC c) else c

/-- Worker for Python `str.title`. -/
def titleAux : Bool → List Nat → List Nat
  | _, [] => []
  | prev, c :: cs => titleChar prev c :: titleAux (isAlphaC c) cs

/-- Python `str.title` on the ASCII fragment. -/
def titleStr (l : List Nat) : List Nat := titleAux false l

/-- `_normalize_name` (aig_processor.py:223-235):
`re.sub(r"\s+", " ", name.strip()).title()`. -/
def normalizeName (name : List Nat) : List Nat := titleStr (collapseWs (pstrip name))

/-- Worker for Python `str.split()` (no separator: split on whitespace runs,
empty tokens discarded); `cur` is the current token, reversed. -/
def splitWsAux : List Nat → List Nat → List (List Nat)
  | cur, [] => if cur.isEmpty then [] else [cur.reverse]
  | cur, c :: cs =>
    if isSp c then
      if cur.isEmpty then splitWsAux [] cs else cur.reverse :: splitWsAux [] cs
    else splitWsAux (c :: cur) cs

/-- Python `str.split()` with no arguments. -/
def splitWs (l : List Nat) : List (List Nat) := splitWsAux [] l

/-- Python `"\n".split` of a text: split at every LF, keeping empty pieces. -/
def splitOnNlAux : List Nat → List Nat → List (List Nat)
  | cur, [] => [cur.reverse]
  | cur, c :: cs =>
    if c = 10 then cur.reverse :: splitOnNlAux [] cs else splitOnNlAux (c :: cur) cs

/-- `text.split("\n")`. -/
def splitOnNl (text : List Nat) : List (List Nat) := splitOnNlAux [] text

/-- `" ".join`: interleave a single space between the pieces. -/
def joinSp : List (List Nat) → List Nat
  | [] => []
  | [t] => t
  | t :: ts => t ++ 32 :: joinSp ts

/-- Python `s.replace(",", "")`. -/
def removeCommas (l : List Nat) : List Nat := l.filter (fun c => c ≠ 44)

/-- Python `s.isdigit()` (ASCII digits; empty string is not a digit string). -/
def isDigitStr (l : List Nat) : Bool := !l.isEmpty && l.all (fun c => 48 ≤ c && c ≤ 57)

/-- Python substring test `needle in hay`. -/
def containsSub (needle : List Nat) : List Nat → Bool
  | [] => needle.isEmpty
  | c :: cs => List.isPrefixOf needle (c :: cs) || containsSub needle cs

/-! ## Data model (the processor's mutable state) -/

/-- One entry of `self.student_details` (a dict value in the source). -/
structure StudentInfo where
  name : List Nat
  studentId : List Nat
  grade : List Nat
  reading : Bool
  math : Bool
deriving DecidableEq, Repr

/-- The processor's accumulating state: `student_details` (an
insertion-ordered dict, modelled as an association list), the two
`aig_students` sets, `stats["td_only_students"]`, `students_in_sources`
and `students_in_excel` (Python sets, modelled as duplicate-free lists). -/
structure ProcState where
  studentDetails : List (List Nat × StudentInfo)
  aigMath : List (List Nat)
  aigReading : List (List Nat)
  tdOnlyStudents : List (List Nat)
  studentsInSources : List (List Nat)
  studentsInExcel : List (List Nat)
deriving DecidableEq, Repr

/-- The state right after `__init__`. -/
def initState : ProcState := ⟨[], [], [], [], [], []⟩

/-- Python `set.add`. -/
def setAdd (s : List (List Nat)) (x : List Nat) : List (List Nat) :=
  if s.contains x then s else s ++ [x]

/-- Replace the value stored under key `k` (Python in-place mutation of a
dict entry's fields); other entries are unchanged. -/
def updEntry (d : List (List Nat × StudentInfo)) (k : List Nat)
    (f : StudentInfo → StudentInfo) : List (List Nat × StudentInfo) :=
  d.map (fun p => if p.1 == k then (p.1, f p.2) else p)

/-- Python dict assignment `d[k] = v`: overwrite in place if the key exists,
append otherwise. -/
def dictSet (d : List (List Nat × StudentInfo)) (k : List Nat) (v : StudentInfo) :
    List (List Nat × StudentInfo) :=
  if (d.lookup k).isSome then updEntry d k (fun _ => v) else d ++ [(k, v)]

/-! ## PDF record parser (`_parse_aig_text`, aig_processor.py:103-208) -/

/-- Split a token list at the first token containing a comma: tokens up to
and including it form the name group, the rest the data group
(the `comma_found` loop of `_parse_aig_text`). -/
def splitAtComma : List (List Nat) → List (List Nat) × List (List Nat)
  | [] => ([], [])
  | p :: ps =>
    if p.contains 44 then ([p], ps)
    else
      let r := splitAtComma ps
      (p :: r.1, r.2)

/-- Status tokens the PDF parser treats as AIG (line 171: TD, AG, IG, AIG). -/
def pdfAigTokens : List (List Nat) := [S "TD", S "AG", S "IG", S "AIG"]

/-- The "stronger than TD" tokens used by the TD-only test (line 178). -/
def pdfStrongTokens : List (List Nat) := [S "AG", S "IG", S "AIG"]

/-- The record recovered from one PDF line, plus its per-line TD-only flag. -/
structure ParsedLine where
  name : List Nat
  studentId : List Nat
  grade : List Nat
  reading : Bool
  math : Bool
  tdOnly : Bool
deriving DecidableEq, Repr

/-- Parse one line of extracted PDF text (`_parse_aig_text` loop body);
`none` means the line is skipped. -/
def parsePdfLine (rawLine : List Nat) : Option ParsedLine :=
  let line := pstrip rawLine
  if line.isEmpty then none
  else if containsSub (S "Name Student Id Grade Reading Math") line
      || containsSub (S "School Roster") line then none
  else if line.contains 44 then
    let parts := splitWs line
    let grp := splitAtComma parts
    let nameParts := grp.1
    let dataParts := grp.2
    match dataParts.findIdx? (fun p => isDigitStr p && decide (8 ≤ p.length)) with
    | some idx =>
      if 1 ≤ idx then
        let firstName := joinSp (dataParts.take idx)
        let remaining := dataParts.drop idx
        if 4 ≤ remaining.length then
          let studentId := remaining.getD 0 []
          let grade := remaining.getD 1 []
          let readingStatus := upperStr (remaining.getD 2 [])
          let mathStatus := upperStr (remaining.getD 3 [])
          let fullName := joinSp nameParts ++ 32 :: firstName
          let normalized := normalizeName fullName
          let isAigReading := pdfAigTokens.contains readingStatus
          let isAigMath := pdfAigTokens.contains mathStatus
          let tdOnly := (readingStatus == S "TD" || mathStatus == S "TD") &&
            !(pdfStrongTokens.contains readingStatus || pdfStrongTokens.contains mathStatus)
          some ⟨normalized, studentId, grade, isAigReading, isAigMath, tdOnly⟩
        else none
      else none
    | none => none
  else none

/-- Apply one parsed (or skipped) PDF line to the state: TD-only set,
AIG index sets, `student_details[name] = student_info` (plain dict
assignment — an existing record is overwritten), `students_in_sources`. -/
def pdfStep (st : ProcState) (line : List Nat) : ProcState :=
  match parsePdfLine line with
  | none => st
  | some p =>
    { st with
      tdOnlyStudents := if p.tdOnly then setAdd st.tdOnlyStudents p.name else st.tdOnlyStudents
      aigMath := if p.math then setAdd st.aigMath p.name else st.aigMath
      aigReading := if p.reading then setAdd st.aigReading p.name else st.aigReading
      studentDetails := dictSet st.studentDetails p.name ⟨p.name, p.studentId, p.grade, p.reading, p.math⟩
      studentsInSources := setAdd st.studentsInSources p.name }

/-- `_parse_aig_text`: split the extracted text on newlines and process
every line in order. -/
def parseAigText (st : ProcState) (text : List Nat) : ProcState :=
  (splitOnNl text).foldl pdfStep st

/-! ## Word-table record parser (`extract_aig_students_from_word`,
`_process_word_name`, aig_processor.py:237-338) -/

/-- `_process_word_name`: a cell with a comma is taken as "Last, First"
already; otherwise the FIRST whitespace token is the first name and the
remaining tokens (joined) the last name, reassembled as "last, first". -/
def processWordName (nameText : List Nat) : List Nat :=
  let nt := pstrip nameText
  if nt.contains 44 then normalizeName nt
  else
    let parts := splitWs nt
    if 2 ≤ parts.length then
      let first := parts.getD 0 []
      let last := joinSp (parts.drop 1)
      normalizeName (last ++ S ", " ++ first)
    else normalizeName nt

/-- Status tokens the Word parser treats as AIG (line 271: TD, AIG). -/
def wordAigTokens : List (List Nat) := [S "TD", S "AIG"]

/-- The three stripped cell texts of one Word table row. -/
structure WordRowData where
  nameText : List Nat
  readingText : List Nat
  mathText : List Nat
deriving DecidableEq, Repr

/-- Process one Word table data row (loop body of
`extract_aig_students_from_word`): TD-only tracking, then OR-merge into an
existing `student_details` record or creation of a new one, then the AIG
index sets and `students_in_sources`. -/
def wordStep (st : ProcState) (r : WordRowData) : ProcState :=
  let nameText := pstrip r.nameText
  if nameText.isEmpty then st
  else
    let normalized := processWordName nameText
    let readingU := upperStr (pstrip r.readingText)
    let mathU := upperStr (pstrip r.mathText)
    let isAigReading := wordAigTokens.contains readingU
    let isAigMath := wordAigTokens.contains mathU
    let tdOnly := (readingU == S "TD" || mathU == S "TD") &&
      !(readingU == S "AIG") && !(mathU == S "AIG")
    let details :=
      match st.studentDetails.lookup normalized with
      | some _ => updEntry st.studentDetails normalized
          (fun info => { info with reading := info.reading || isAigReading,
                                   math := info.math || isAigMath })
      | none => st.studentDetails ++
          [(normalized, ⟨normalized, S "N/A", S "N/A", isAigReading, isAigMath⟩)]
    { st with
      tdOnlyStudents := if tdOnly then setAdd st.tdOnlyStudents normalized else st.tdOnlyStudents
      studentDetails := details
      aigMath := if isAigMath then setAdd st.aigMath normalized else st.aigMath
      aigReading := if isAigReading then setAdd st.aigReading normalized else st.aigReading
      studentsInSources := setAdd st.studentsInSources normalized }

/-- One Word table (list of rows, each a list of cell texts): the header row
(index 0) is skipped, rows with fewer than 3 cells are skipped. -/
def processWordTable (st : ProcState) (table : List (List (List Nat))) : ProcState :=
  (table.drop 1).foldl
    (fun s row =>
      if 3 ≤ row.length then
        wordStep s ⟨row.getD 0 [], row.getD 1 [], row.getD 2 []⟩
      else s) st

/-- All tables of the Word document, in document order. -/
def processWordDoc (st : ProcState) (doc : List (List (List (List Nat)))) : ProcState :=
  doc.foldl processWordTable st

/-! ## Name matcher (`_names_match`, `_find_student_in_aig`,
aig_processor.py:340-413) -/

/-- `_names_match`: remove commas, split on whitespace; both names need at
least two tokens; token 0 (surname) must match case-insensitively; the
lower-cased token-1 first names match if equal or one starts with the other. -/
def namesMatch (name1 name2 : List Nat) : Bool :=
  let parts1 := splitWs (removeCommas name1)
  let parts2 := splitWs (removeCommas name2)
  if 2 ≤ parts1.length && 2 ≤ parts2.length then
    if lowerStr (parts1.getD 0 []) == lowerStr (parts2.getD 0 []) then
      let first1 := lowerStr (parts1.getD 1 [])
      let first2 := lowerStr (parts2.getD 1 [])
      first1 == first2 || List.isPrefixOf first2 first1 || List.isPrefixOf first1 first2
    else false
  else false

/-- Result of `_find_student_in_aig`. -/
structure AigStatus where
  math : Bool
  reading : Bool
deriving DecidableEq, Repr

/-- `_find_student_in_aig`: normalize the queried name, prefer a direct
`student_details` lookup; otherwise exact membership in each AIG index set,
then a fuzzy pass with `_names_match`.  The source also takes a
`classroom_grade` argument, but it is used only in a debug log message
(lines 362-364) and never influences the returned value, so it is omitted. -/
def findStudentInAig (st : ProcState) (studentName : List Nat) : AigStatus :=
  let normalized := normalizeName studentName
  match st.studentDetails.lookup normalized with
  | some info => ⟨info.math, info.reading⟩
  | none =>
    let inMathExact := st.aigMath.contains normalized
    let inMath := inMathExact || st.aigMath.any (fun an => namesMatch normalized an)
    let inReadingExact := st.aigReading.contains normalized
    let inReading := inReadingExact || st.aigReading.any (fun an => namesMatch normalized an)
    ⟨inMath, inReading⟩

/-! ## Classroom sheet reconciler (`update_excel_with_aig_data`,
aig_processor.py:415-566) -/

/-- The status counters of `self.stats` (the TD-only set lives in
`ProcState.tdOnlyStudents`). -/
structure Stats where
  totalStudents : Nat
  aigMathOnly : Nat
  aigReadingOnly : Nat
  aigBoth : Nat
  aigNone : Nat
deriving DecidableEq, Repr

/-- All counters zero, as set in `__init__`. -/
def initStats : Stats := ⟨0, 0, 0, 0, 0⟩

/-- The three `PatternFill` colors of `self.colors`, plus "no fill". -/
inductive ColorClass where
  | yellow
  | blue
  | orange
  | noFill
deriving DecidableEq, Repr

/-- One emitted output row: `[lastname, firstname, math, reading, status]`
plus the fill applied to it. -/
structure OutRow where
  lastname : List Nat
  firstname : List Nat
  math : Bool
  reading : Bool
  statusText : List Nat
  color : ColorClass
deriving DecidableEq, Repr

/-- One input sheet: its name and its raw cell grid; a `none` cell is a
pandas NaN (empty cell), a `some` cell holds the cell's text. -/
structure Sheet where
  name : List Nat
  rows : List (List (Option (List Nat)))
deriving DecidableEq, Repr

/-- Accumulator while walking one sheet's student rows. -/
structure RowAcc where
  st : ProcState
  stats : Stats
  mainRows : List OutRow
  aigRows : List OutRow
deriving DecidableEq, Repr

/-- Status text and fill for a (math, reading) flag pair
(lines 511-526 of the source). -/
def classify (m r : Bool) : List Nat × ColorClass :=
  if m && r then (S "Both Math & Reading", ColorClass.yellow)
  else if m then (S "Math Only", ColorClass.blue)
  else if r then (S "Reading Only", ColorClass.orange)
  else (S "None", ColorClass.noFill)

/-- Stats update for a (math, reading) flag pair (same branch structure). -/
def bumpStats (s : Stats) (m r : Bool) : Stats :=
  if m && r then { s with aigBoth := s.aigBoth + 1 }
  else if m then { s with aigMathOnly := s.aigMathOnly + 1 }
  else if r then { s with aigReadingOnly := s.aigReadingOnly + 1 }
  else { s with aigNone := s.aigNone + 1 }

/-- Process one student body row (loop body at lines 493-545).  The pair
holds the first two cells; a `none` cell yields the empty string.  A row is
processed only when both stripped names are nonempty and the lastname is not
a header token ('LASTNAME'/'LAST'); the firstname is NOT header-checked. -/
def processRow (acc : RowAcc) (cells : Option (List Nat) × Option (List Nat)) : RowAcc :=
  let lastname := pstrip ((cells.1).getD [])
  let firstname := pstrip ((cells.2).getD [])
  if !lastname.isEmpty && !firstname.isEmpty &&
      !(upperStr lastname == S "LASTNAME" || upperStr lastname == S "LAST") then
    let stats1 := { acc.stats with totalStudents := acc.stats.totalStudents + 1 }
    let fullName := lastname ++ S ", " ++ firstname
    let st1 := { acc.st with
      studentsInExcel := setAdd acc.st.studentsInExcel (normalizeName fullName) }
    let r := findStudentInAig st1 fullName
    let sc := classify r.math r.reading
    let row : OutRow := ⟨lastname, firstname, r.math, r.reading, sc.1, sc.2⟩
    { st := st1
      stats := bumpStats stats1 r.math r.reading
      mainRows := acc.mainRows ++ [row]
      aigRows := if r.math || r.reading then acc.aigRows ++ [row] else acc.aigRows }
  else acc

/-- Result of processing one sheet; `output = none` means the sheet was
skipped (no worksheet is created in either workbook). -/
structure SheetResult where
  st : ProcState
  stats : Stats
  output : Option (List Nat × List OutRow × List OutRow)
deriving DecidableEq, Repr

/-- Process one sheet: sheets with fewer than 3 rows are skipped outright
(line 461); otherwise rows from index 2 keep their first two cells,
rows with both cells NaN are dropped (`dropna(how="all")`), and each
remaining row runs through `processRow`. -/
def processSheet (st : ProcState) (stats : Stats) (sheet : Sheet) : SheetResult :=
  if sheet.rows.length < 3 then ⟨st, stats, none⟩
  else
    let bodyRows := ((sheet.rows.drop 2).map (fun r => (r.getD 0 none, r.getD 1 none))).filter
      (fun p => p.1.isSome || p.2.isSome)
    let acc := bodyRows.foldl processRow ⟨st, stats, [], []⟩
    ⟨acc.st, acc.stats, some (sheet.name, acc.mainRows, acc.aigRows)⟩

/-- Result of `update_excel_with_aig_data` over all sheets: final state and
stats, and the per-sheet contents of the two output workbooks. -/
structure RunOut where
  st : ProcState
  stats : Stats
  mainSheets : List (List Nat × List OutRow)
  aigSheets : List (List Nat × List OutRow)
deriving DecidableEq, Repr

/-- Fold `processSheet` over the workbook's sheets in order, collecting the
created worksheets. -/
def updateExcelWithAigData (st : ProcState) (stats : Stats) (sheets : List Sheet) : RunOut :=
  match sheets with
  | [] => ⟨st, stats, [], []⟩
  | sheet :: rest =>
    let r := processSheet st stats sheet
    let out := updateExcelWithAigData r.st r.stats rest
    match r.output with
    | none => out
    | some o => { out with
        mainSheets := (o.1, o.2.1) :: out.mainSheets
        aigSheets := (o.1, o.2.2) :: out.aigSheets }

/-! ## `process` pipeline with its log stream (aig_processor.py:744-776).

File inputs are modelled as already-resolved values: the PDF input is
`Except err text` (reading may fail, which is fatal), the Word input is
`none` when no path is given or the file does not exist, `some (.error e)`
when `Document(path)` raises, and `some (.ok doc)` when it is readable.
Log messages carry their level; dynamic parts of a message (paths, counts)
are elided.  Debug-level per-record messages are omitted; on the success
path every other log call in the source is info-level (the only candidate
warning, line 439, fires only when re-opening the spreadsheet for tab-color
preservation fails, and is not modelled since the spreadsheet input here is
always readable). -/

/-- Log levels of the `logging` module used by the source. -/
inductive LogLevel where
  | debug
  | info
  | warning
  | error
deriving DecidableEq, Repr

/-- `extract_aig_students_from_pdf`: a read failure is logged and re-raised. -/
def extractAigStudentsFromPdf (st : ProcState) (pdfInput : Except (List Nat) (List Nat)) :
    Except (List Nat) ProcState × List (LogLevel × List Nat) :=
  match pdfInput with
  | Except.error e =>
      (Except.error e,
        [(LogLevel.info, S "Processing PDF file: "),
         (LogLevel.error, S "Error reading PDF file: " ++ e)])
  | Except.ok text =>
      (Except.ok (parseAigText st text), [(LogLevel.info, S "Processing PDF file: ")])

/-- `extract_aig_students_from_word` (lines 244-312): a missing path logs an
info message and returns; an unreadable document logs an error and returns
(the exception is swallowed, line 310-312); otherwise the tables are
processed. -/
def extractAigStudentsFromWord (st : ProcState)
    (wordInput : Option (Except (List Nat) (List (List (List (List Nat)))))) :
    ProcState × List (LogLevel × List Nat) :=
  match wordInput with
  | none =>
      (st, [(LogLevel.info,
        S "No Word document provided or file not found, skipping Word processing")])
  | some (Except.error e) =>
      (st, [(LogLevel.info, S "Processing Word document: "),
            (LogLevel.error, S "Error reading Word document: " ++ e)])
  | some (Except.ok doc) =>
      (processWordDoc st doc, [(LogLevel.info, S "Processing Word document: ")])

/-- `process`: PDF extraction (fatal on failure), Word extraction
(never fatal), then the Excel update.  Returns the outcome together with
the emitted log stream. -/
def process (pdfInput : Except (List Nat) (List Nat))
    (wordInput : Option (Except (List Nat) (List (List (List (List Nat))))))
    (sheets : List Sheet) :
    Except (List Nat) RunOut × List (LogLevel × List Nat) :=
  let startLog : LogLevel × List Nat :=
    (LogLevel.info, S "Starting AIG Class List Processing...")
  match extractAigStudentsFromPdf initState pdfInput with
  | (Except.error e, plogs) =>
      (Except.error e,
        startLog :: plogs ++ [(LogLevel.error, S "Error during processing: ")])
  | (Except.ok st1, plogs) =>
      let wr := extractAigStudentsFromWord st1 wordInput
      let out := updateExcelWithAigData wr.1 initStats sheets
      (Except.ok out,
        startLog :: plogs ++
        [(LogLevel.info, S "Found AIG Math students"),
         (LogLevel.info, S "Found AIG Reading students")] ++
        wr.2 ++
        [(LogLevel.info, S "Total AIG Math students after Word processing"),
         (LogLevel.info, S "Total AIG Reading students after Word processing"),
         (LogLevel.info, S "Updating Excel file with AIG data..."),
         (LogLevel.info, S "Updated Excel file saved: "),
         (LogLevel.info, S "AIG-only Excel file saved: "),
         (LogLevel.info, S "Generating missing students report..."),
         (LogLevel.info, S "Processing completed successfully!"),
         (LogLevel.info, S "Updated Excel file: ")])

/-! ## Properties under verification -/

/-- Counter consistency: total_students equals the sum of the four status
counters. -/
def statsBalanced (s : Stats) : Prop :=
  s.totalStudents = s.aigBoth + s.aigMathOnly + s.aigReadingOnly + s.aigNone

/-- Index consistency (one direction): every stored record with a true math
flag has its name in the math index set, and symmetrically for reading. -/
def flagsSubsetIndex (st : ProcState) : Prop :=
  ∀ p ∈ st.studentDetails,
    (p.2.math = true → st.aigMath.contains p.1 = true) ∧
    (p.2.reading = true → st.aigReading.contains p.1 = true)

/-! ## Theorems -/

/-- C2: the PDF line "Smith, John 123456789 3 AIG TD" parses to the record
(name "Smith, John", id "123456789", grade "3", reading true, math true),
and a classroom sheet row (lastname "Smith", firstname "John") under grade
metadata "3" is classified "Both Math & Reading" with the yellow fill. -/
theorem C2_smith_scenario :
    parsePdfLine (S "Smith, John 123456789 3 AIG TD") =
      some ⟨S "Smith, John", S "123456789", S "3", true, true, false⟩ ∧
    (processSheet (pdfStep initState (S "Smith, John 123456789 3 AIG TD")) initStats
        ⟨S "Class1",
          [[some (S "Teacher 3rd grade")],
           [some (S "LASTNAME"), some (S "FIRSTNAME")],
           [some (S "Smith"), some (S "John")]]⟩).output =
      some (S "Class1",
        [⟨S "Smith", S "John", true, true, S "Both Math & Reading", ColorClass.yellow⟩],
        [⟨S "Smith", S "John", true, true, S "Both Math & Reading", ColorClass.yellow⟩]) ∧
    (processSheet (pdfStep initState (S "Smith, John 123456789 3 AIG TD")) initStats
        ⟨S "Class1",
          [[some (S "Teacher 3rd grade")],
           [some (S "LASTNAME"), some (S "FIRSTNAME")],
           [some (S "Smith"), some (S "John")]]⟩).stats.aigBoth = 1 := by
  refine ⟨by decide, by decide, by decide⟩

/-- C3 counterexample: the Word cell "Doe John" does NOT normalize to
"Doe, John" — `_process_word_name` takes the first whitespace token as the
first name, producing "John, Doe". -/
theorem C3_counterexample :
    ¬ (processWordName (S "Doe John") = S "Doe, John") := by decide

/-- C3 (amended): the Word row ("Doe John", "TD", "-") produces a record
under the normalized name "John, Doe" (the first token is treated as the
FIRST name), with reading true (TD) and math false ("-" not in the Word AIG
set), and "John, Doe" enters the TD-only statistics set. -/
theorem C3_word_doe_scenario :
    processWordName (S "Doe John") = S "John, Doe" ∧
    (wordStep initState ⟨S "Doe John", S "TD", S "-"⟩).studentDetails =
      [(S "John, Doe", ⟨S "John, Doe", S "N/A", S "N/A", true, false⟩)] ∧
    (wordStep initState ⟨S "Doe John", S "TD", S "-"⟩).tdOnlyStudents = [S "John, Doe"] := by
  refine ⟨by decide, by decide, by decide⟩

/-- C4: the fallback fuzzy matcher reports a match exactly when both names
(after comma removal and whitespace split) have at least 2 tokens, their
token-0 surnames agree case-insensitively, and the lower-cased token-1
first names are equal or one is a prefix of the other; with fewer than 2
tokens it never matches.  Moreover, with a PDF record "Nguyen, Alexander"
(math true) and no direct map entry for "Nguyen, Alex", resolving
"Nguyen, Alex" returns math true via the fallback. -/
theorem C4_names_match_characterization :
    (∀ name1 name2 : List Nat,
      namesMatch name1 name2 = true ↔
        (2 ≤ (splitWs (removeCommas name1)).length ∧
         2 ≤ (splitWs (removeCommas name2)).length ∧
         lowerStr ((splitWs (removeCommas name1)).getD 0 []) =
           lowerStr ((splitWs (removeCommas name2)).getD 0 []) ∧
         (lowerStr ((splitWs (removeCommas name1)).getD 1 []) =
            lowerStr ((splitWs (removeCommas name2)).getD 1 []) ∨
          List.isPrefixOf (lowerStr ((splitWs (removeCommas name2)).getD 1 []))
            (lowerStr ((splitWs (removeCommas name1)).getD 1 [])) = true ∨
          List.isPrefixOf (lowerStr ((splitWs (removeCommas name1)).getD 1 []))
            (lowerStr ((splitWs (removeCommas name2)).getD 1 [])) = true))) ∧
    (pdfStep initState (S "Nguyen, Alexander 123456789 4 - TD")).studentDetails.lookup
      (normalizeName (S "Nguyen, Alex")) = none ∧
    findStudentInAig (pdfStep initState (S "Nguyen, Alexander 123456789 4 - TD"))
      (S "Nguyen, Alex") = ⟨true, false⟩ := by
  refine ⟨fun name1 name2 => ?_, by decide, by decide⟩
  unfold namesMatch
  dsimp only
  split
  next hlen =>
    rw [Bool.and_eq_true, decide_eq_true_eq, decide_eq_true_eq] at hlen
    split
    next hsur =>
      rw [beq_iff_eq] at hsur
      simp only [Bool.or_eq_true, beq_iff_eq]
      constructor
      · rintro ((h | h) | h) <;> exact ⟨hlen.1, hlen.2, hsur, by tauto⟩
      · rintro ⟨-, -, -, h⟩; tauto
    next hsur =>
      rw [beq_iff_eq] at hsur
      constructor
      · intro h; exact absurd h (by simp)
      · rintro ⟨-, -, h, -⟩; exact absurd h hsur
  next hlen =>
    rw [Bool.and_eq_true, decide_eq_true_eq, decide_eq_true_eq] at hlen
    constructor
    · intro h; exact absurd h (by simp)
    · rintro ⟨h1, h2, -, -⟩; exact absurd ⟨h1, h2⟩ hlen

/-- C1 counterexample: two PDF lines with the same normalized name — the
second line's upsert OVERWRITES the record, turning the previously-true
reading flag false (the PDF parser does not OR-merge). -/
theorem C1_counterexample :
    ((pdfStep initState (S "Smith, John 123456789 3 TD -")).studentDetails.lookup
        (S "Smith, John")).map StudentInfo.reading = some true ∧
    ((pdfStep (pdfStep initState (S "Smith, John 123456789 3 TD -"))
        (S "Smith, John 123456789 3 - TD")).studentDetails.lookup
        (S "Smith, John")).map StudentInfo.reading = some false := by
  refine ⟨by decide, by decide⟩

/-- C6: a sheet with fewer than 3 rows is skipped entirely: the state and
all counters are unchanged, and prepending it to a run contributes no
worksheet to either output workbook (no error is possible — the model is a
total function). -/
theorem C6_short_sheet_skipped (st : ProcState) (stats : Stats) (sheet : Sheet)
    (rest : List Sheet) (h : sheet.rows.length < 3) :
    processSheet st stats sheet = ⟨st, stats, none⟩ ∧
    updateExcelWithAigData st stats (sheet :: rest) =
      updateExcelWithAigData st stats rest := by
  have hp : processSheet st stats sheet = ⟨st, stats, none⟩ := by
    unfold processSheet
    rw [if_pos h]
  refine ⟨hp, ?_⟩
  conv_lhs => rw [updateExcelWithAigData]
  rw [hp]

/-- C6 witness: a concrete 2-row sheet is skipped and contributes nothing. -/
theorem C6_short_sheet_skipped_witness :
    processSheet initState initStats
        ⟨S "Tiny", [[some (S "meta")], [some (S "LASTNAME"), some (S "FIRSTNAME")]]⟩ =
      ⟨initState, initStats, none⟩ ∧
    updateExcelWithAigData initState initStats
        [⟨S "Tiny", [[some (S "meta")], [some (S "LASTNAME"), some (S "FIRSTNAME")]]⟩] =
      updateExcelWithAigData initState initStats [] :=
  C6_short_sheet_skipped initState initStats
    ⟨S "Tiny", [[some (S "meta")], [some (S "LASTNAME"), some (S "FIRSTNAME")]]⟩ [] (by decide)

/-- C8 counterexample: a body row whose FIRSTNAME field is the literal
header token "FIRSTNAME" is NOT skipped — it is counted into
total_students and emitted to the output workbook (only the lastname field
is header-checked). -/
theorem C8_counterexample :
    (processSheet initState initStats
        ⟨S "C1",
          [[some (S "meta")],
           [some (S "LASTNAME"), some (S "FIRSTNAME")],
           [some (S "Smith"), some (S "FIRSTNAME")]]⟩).stats.totalStudents = 1 ∧
    (processSheet initState initStats
        ⟨S "C1",
          [[some (S "meta")],
           [some (S "LASTNAME"), some (S "FIRSTNAME")],
           [some (S "Smith"), some (S "FIRSTNAME")]]⟩).output =
      some (S "C1",
        [⟨S "Smith", S "FIRSTNAME", false, false, S "None", ColorClass.noFill⟩], []) := by
  refine ⟨by decide, by decide⟩

/-- C8 (amended): a body row is skipped — the accumulator (counters, output
rows, state) is unchanged — whenever the stripped lastname is empty, the
stripped firstname is empty, or the upper-cased stripped lastname equals
"LASTNAME" or "LAST".  (The firstname field is not checked against header
tokens.) -/
theorem C8_row_skipped (acc : RowAcc) (a b : Option (List Nat))
    (h : pstrip (a.getD []) = [] ∨ pstrip (b.getD []) = [] ∨
      upperStr (pstrip (a.getD [])) = S "LASTNAME" ∨
      upperStr (pstrip (a.getD [])) = S "LAST") :
    processRow acc (a, b) = acc := by
  unfold processRow
  dsimp only
  rw [if_neg]
  intro hc
  rw [Bool.and_eq_true, Bool.and_eq_true] at hc
  obtain ⟨⟨hl, hf⟩, hh⟩ := hc
  rw [Bool.not_eq_true'] at hl hf
  rw [Bool.not_eq_true', Bool.or_eq_false_iff] at hh
  rcases h with h | h | h | h
  · rw [h] at hl; simp at hl
  · rw [h] at hf; simp at hf
  · rw [h, beq_self_eq_true] at hh; simp at hh
  · rw [h, beq_self_eq_true] at hh; simp at hh

/-- C8 witness: a concrete row with lastname "LAST" is left unprocessed. -/
theorem C8_row_skipped_witness :
    processRow ⟨initState, initStats, [], []⟩ (some (S "LAST"), some (S "Ann")) =
      ⟨initState, initStats, [], []⟩ :=
  C8_row_skipped ⟨initState, initStats, [], []⟩ (some (S "LAST")) (some (S "Ann"))
    (Or.inr (Or.inr (Or.inr (by decide))))

/-- C5 counterexample: after the same two PDF lines, "Smith, John" is still
a member of the reading index set although the record's reading flag has
been overwritten to false — the "iff" consistency invariant fails. -/
theorem C5_counterexample :
    (pdfStep (pdfStep initState (S "Smith, John 123456789 3 TD -"))
        (S "Smith, John 123456789 3 - TD")).aigReading.contains (S "Smith, John") = true ∧
    ((pdfStep (pdfStep initState (S "Smith, John 123456789 3 TD -"))
        (S "Smith, John 123456789 3 - TD")).studentDetails.lookup
        (S "Smith, John")).map StudentInfo.reading = some false := by
  refine ⟨by decide, by decide⟩

/-- C7 counterexample: running `process` with an existing PDF and a missing
Word document emits NO warning-level log entry at all (the skip message is
info-level), contradicting the claimed warning-level message. -/
theorem C7_counterexample :
    ((process (Except.ok (S "")) none []).2.filter
      (fun e => decide (e.1 = LogLevel.warning))) = [] := by decide

/-- C7 (amended): when the Word document path does not exist, `process`
completes successfully using PDF-only data (the failure is never
propagated), and the log stream contains an INFO-level message mentioning
"Word" and "skipping". -/
theorem C7_missing_word_nonfatal (pdfText : List Nat) (sheets : List Sheet) :
    (process (Except.ok pdfText) none sheets).1 =
      Except.ok (updateExcelWithAigData (parseAigText initState pdfText) initStats sheets) ∧
    ∃ m, (LogLevel.info, m) ∈ (process (Except.ok pdfText) none sheets).2 ∧
      containsSub (S "Word") m = true ∧ containsSub (S "skipping") m = true := by
  refine ⟨rfl, S "No Word document provided or file not found, skipping Word processing",
    ?_, by decide, by decide⟩
  simp [process, extractAigStudentsFromPdf, extractAigStudentsFromWord]

/-- The per-row stats update keeps total = both + mathOnly + readingOnly + none. -/
theorem bumpStats_balanced (s : Stats) (m r : Bool) (h : statsBalanced s) :
    statsBalanced (bumpStats { s with totalStudents := s.totalStudents + 1 } m r) := by
  unfold statsBalanced at *
  unfold bumpStats
  cases m <;> cases r <;> simp <;> omega

/-- `processRow` preserves counter consistency. -/
theorem processRow_balanced (acc : RowAcc) (c : Option (List Nat) × Option (List Nat))
    (h : statsBalanced acc.stats) : statsBalanced (processRow acc c).stats := by
  unfold processRow
  dsimp only
  split
  · exact bumpStats_balanced _ _ _ h
  · exact h

/-- Folding `processRow` over a row list preserves counter consistency. -/
theorem foldl_processRow_balanced (rows : List (Option (List Nat) × Option (List Nat))) :
    ∀ acc : RowAcc, statsBalanced acc.stats →
      statsBalanced (rows.foldl processRow acc).stats := by
  induction rows with
  | nil => intro acc h; exact h
  | cons r t ih => intro acc h; exact ih _ (processRow_balanced acc r h)

/-- `processSheet` preserves counter consistency. -/
theorem processSheet_balanced (st : ProcState) (stats : Stats) (sheet : Sheet)
    (h : statsBalanced stats) : statsBalanced (processSheet st stats sheet).stats := by
  unfold processSheet
  split
  · exact h
  · dsimp only
    exact foldl_processRow_balanced _ ⟨st, stats, [], []⟩ h

/-- The full sheet fold preserves counter consistency. -/
theorem updateExcel_balanced (sheets : List Sheet) :
    ∀ (st : ProcState) (stats : Stats), statsBalanced stats →
      statsBalanced (updateExcelWithAigData st stats sheets).stats := by
  induction sheets with
  | nil => intro st stats h; exact h
  | cons sheet rest ih =>
    intro st stats h
    unfold updateExcelWithAigData
    dsimp only
    split
    · exact ih _ _ (processSheet_balanced st stats sheet h)
    · dsimp only
      exact ih _ _ (processSheet_balanced st stats sheet h)

/-- C10: starting from zeroed statistics, after reconciling any sheet list
total_students equals aig_both + aig_math_only + aig_reading_only +
aig_none (every counted row bumps exactly one status counter). -/
theorem C10_total_eq_sum (st : ProcState) (sheets : List Sheet) :
    (updateExcelWithAigData st initStats sheets).stats.totalStudents =
      (updateExcelWithAigData st initStats sheets).stats.aigBoth +
      (updateExcelWithAigData st initStats sheets).stats.aigMathOnly +
      (updateExcelWithAigData st initStats sheets).stats.aigReadingOnly +
      (updateExcelWithAigData st initStats sheets).stats.aigNone :=
  updateExcel_balanced sheets st initStats rfl

/-- Looking up the updated key returns the mapped value. -/
theorem lookup_updEntry (d : List (List Nat × StudentInfo)) (k : List Nat)
    (f : StudentInfo → StudentInfo) :
    (updEntry d k f).lookup k = (d.lookup k).map f := by
  induction d with
  | nil => rfl
  | cons p t ih =>
    obtain ⟨a, v⟩ := p
    simp only [updEntry, List.map_cons] at ih ⊢
    split
    next hak =>
      have ha : a = k := by simpa using hak
      subst ha
      have h1 : List.lookup a ((a, v) :: t) = some v := by simp [List.lookup]
      rw [h1]
      simp [List.lookup]
    next hak =>
      have ha : ¬ a = k := by simpa using hak
      have hba : (k == a) = false := by simp [Ne.symm ha]
      have h2 : List.lookup k ((a, v) :: t) = List.lookup k t := by
        simp [List.lookup, hba]
      rw [h2]
      simpa [List.lookup, hba] using ih

/-- In-place update of a dict entry does not change the number of entries. -/
theorem length_updEntry (d : List (List Nat × StudentInfo)) (k : List Nat)
    (f : StudentInfo → StudentInfo) : (updEntry d k f).length = d.length :=
  List.length_map d _

/-- Assigning to an existing key is an in-place update. -/
theorem dictSet_of_mem (d : List (List Nat × StudentInfo)) (k : List Nat)
    (v : StudentInfo) (h : (d.lookup k).isSome) :
    dictSet d k v = updEntry d k (fun _ => v) := by
  unfold dictSet
  rw [if_pos h]

/-- C1 (amended): when a normalized name is already in the record map, the
Word-table parser OR-merges: the entry count is unchanged (no duplicate
record) and a boolean flag that was true stays true.  The PDF parser also
creates no duplicate record for an existing name, but it OVERWRITES the
stored record with the new line's values, so a previously-true flag is not
preserved. -/
theorem C1_upsert_behaviour :
    (∀ (st : ProcState) (r : WordRowData) (info : StudentInfo),
      (pstrip r.nameText).isEmpty = false →
      st.studentDetails.lookup (processWordName (pstrip r.nameText)) = some info →
      (wordStep st r).studentDetails.length = st.studentDetails.length ∧
      ∃ info',
        (wordStep st r).studentDetails.lookup (processWordName (pstrip r.nameText)) =
          some info' ∧
        (info.reading = true → info'.reading = true) ∧
        (info.math = true → info'.math = true)) ∧
    (∀ (st : ProcState) (line : List Nat) (p : ParsedLine) (info : StudentInfo),
      parsePdfLine line = some p →
      st.studentDetails.lookup p.name = some info →
      (pdfStep st line).studentDetails.length = st.studentDetails.length ∧
      (pdfStep st line).studentDetails.lookup p.name =
        some ⟨p.name, p.studentId, p.grade, p.reading, p.math⟩) := by
  constructor
  · intro st r info hne hlk
    unfold wordStep
    dsimp only
    rw [hne, if_neg Bool.false_ne_true, hlk]
    dsimp only
    refine ⟨length_updEntry _ _ _, ?_⟩
    rw [lookup_updEntry, hlk]
    exact ⟨_, rfl, fun h => by simp [h], fun h => by simp [h]⟩
  · intro st line p info hp hlk
    unfold pdfStep
    rw [hp]
    dsimp only
    rw [dictSet_of_mem _ _ _ (by rw [hlk]; rfl)]
    refine ⟨length_updEntry _ _ _, ?_⟩
    rw [lookup_updEntry, hlk]
    rfl

/-- C1 witness: concrete instantiations of both halves — a Word row merging
into an existing Word record, and a second PDF line hitting an existing PDF
record. -/
theorem C1_upsert_behaviour_witness :
    ((wordStep (wordStep initState ⟨S "Ann Lee", S "TD", S "-"⟩)
        ⟨S "Ann Lee", S "-", S "TD"⟩).studentDetails.length =
      (wordStep initState ⟨S "Ann Lee", S "TD", S "-"⟩).studentDetails.length ∧
     ∃ info',
       (wordStep (wordStep initState ⟨S "Ann Lee", S "TD", S "-"⟩)
          ⟨S "Ann Lee", S "-", S "TD"⟩).studentDetails.lookup
          (processWordName (pstrip (S "Ann Lee"))) = some info' ∧
       ((⟨S "Lee, Ann", S "N/A", S "N/A", true, false⟩ : StudentInfo).reading = true →
         info'.reading = true) ∧
       ((⟨S "Lee, Ann", S "N/A", S "N/A", true, false⟩ : StudentInfo).math = true →
         info'.math = true)) ∧
    ((pdfStep (pdfStep initState (S "Smith, John 123456789 3 TD -"))
        (S "Smith, John 123456789 3 - TD")).studentDetails.length =
      (pdfStep initState (S "Smith, John 123456789 3 TD -")).studentDetails.length ∧
     (pdfStep (pdfStep initState (S "Smith, John 123456789 3 TD -"))
        (S "Smith, John 123456789 3 - TD")).studentDetails.lookup (S "Smith, John") =
       some ⟨S "Smith, John", S "123456789", S "3", false, true⟩) :=
  ⟨C1_upsert_behaviour.1 (wordStep initState ⟨S "Ann Lee", S "TD", S "-"⟩)
      ⟨S "Ann Lee", S "-", S "TD"⟩ ⟨S "Lee, Ann", S "N/A", S "N/A", true, false⟩
      (by decide) (by decide),
   C1_upsert_behaviour.2 (pdfStep initState (S "Smith, John 123456789 3 TD -"))
      (S "Smith, John 123456789 3 - TD")
      ⟨S "Smith, John", S "123456789", S "3", false, true, true⟩
      ⟨S "Smith, John", S "123456789", S "3", true, false⟩
      (by decide) (by decide)⟩

/-- `set.add` makes the element a member. -/
theorem contains_setAdd_self (s : List (List Nat)) (x : List Nat) :
    (setAdd s x).contains x = true := by
  unfold setAdd
  split
  next h => exact h
  next h => simp

/-- `set.add` keeps existing members. -/
theorem contains_setAdd_mono (s : List (List Nat)) (x y : List Nat)
    (h : s.contains y = true) : (setAdd s x).contains y = true := by
  unfold setAdd
  split
  next => exact h
  next => simp_all

/-- Generic preservation step for the flags-to-index inclusion: if every
record of the new map either inherits a true flag from an old record with
the same key or carries the flag that was just added to the index for name
`n`, the inclusion carries over. -/
theorem flagsSubsetIndex_update (st st' : ProcState) (n : List Nat)
    (mFlag rFlag : Bool)
    (hM : st'.aigMath = if mFlag then setAdd st.aigMath n else st.aigMath)
    (hR : st'.aigReading = if rFlag then setAdd st.aigReading n else st.aigReading)
    (hD : ∀ q ∈ st'.studentDetails,
      (q.2.math = true → (mFlag = true ∧ q.1 = n) ∨
        ∃ q0 ∈ st.studentDetails, q0.1 = q.1 ∧ q0.2.math = true) ∧
      (q.2.reading = true → (rFlag = true ∧ q.1 = n) ∨
        ∃ q0 ∈ st.studentDetails, q0.1 = q.1 ∧ q0.2.reading = true))
    (hinv : flagsSubsetIndex st) : flagsSubsetIndex st' := by
  intro q hq
  obtain ⟨hqm, hqr⟩ := hD q hq
  constructor
  · intro hm
    rw [hM]
    rcases hqm hm with ⟨hf, hk⟩ | ⟨q0, hq0, hk, hq0m⟩
    · rw [hk, if_pos hf]
      exact contains_setAdd_self _ _
    · have hc := (hinv q0 hq0).1 hq0m
      rw [hk] at hc
      split
      · exact contains_setAdd_mono _ _ _ hc
      · exact hc
  · intro hr
    rw [hR]
    rcases hqr hr with ⟨hf, hk⟩ | ⟨q0, hq0, hk, hq0r⟩
    · rw [hk, if_pos hf]
      exact contains_setAdd_self _ _
    · have hc := (hinv q0 hq0).2 hq0r
      rw [hk] at hc
      split
      · exact contains_setAdd_mono _ _ _ hc
      · exact hc

/-- C5 (amended): at every point of a run, every record flag that is true
has its name in the corresponding per-subject index set — the inclusion
holds initially and is preserved by every PDF-line and Word-row step.  (The
claimed converse — set membership implying a true flag — is false, see the
counterexample: a later PDF line can overwrite a flag to false while the
name stays in the set.) -/
theorem C5_flags_subset_index :
    flagsSubsetIndex initState ∧
    (∀ (st : ProcState) (line : List Nat),
      flagsSubsetIndex st → flagsSubsetIndex (pdfStep st line)) ∧
    (∀ (st : ProcState) (r : WordRowData),
      flagsSubsetIndex st → flagsSubsetIndex (wordStep st r)) := by
  refine ⟨?_, ?_, ?_⟩
  · intro p hp
    simp [initState] at hp
  · intro st line hinv
    unfold pdfStep
    cases hp : parsePdfLine line with
    | none => exact hinv
    | some p =>
      dsimp only
      apply flagsSubsetIndex_update st _ p.name p.math p.reading rfl rfl ?_ hinv
      intro q hq
      dsimp only at hq
      unfold dictSet at hq
      by_cases hl : (st.studentDetails.lookup p.name).isSome
      · rw [if_pos hl] at hq
        unfold updEntry at hq
        obtain ⟨q0, hq0, hfq⟩ := List.mem_map.mp hq
        by_cases hqk : (q0.1 == p.name) = true
        · rw [if_pos hqk] at hfq
          have hk : q0.1 = p.name := by simpa using hqk
          subst hfq
          exact ⟨fun hm => Or.inl ⟨hm, hk⟩, fun hr => Or.inl ⟨hr, hk⟩⟩
        · rw [if_neg hqk] at hfq
          subst hfq
          exact ⟨fun hm => Or.inr ⟨q0, hq0, rfl, hm⟩, fun hr => Or.inr ⟨q0, hq0, rfl, hr⟩⟩
      · rw [if_neg hl] at hq
        rcases List.mem_append.mp hq with h | h
        · exact ⟨fun hm => Or.inr ⟨q, h, rfl, hm⟩, fun hr => Or.inr ⟨q, h, rfl, hr⟩⟩
        · have hq' : q = (p.name, ⟨p.name, p.studentId, p.grade, p.reading, p.math⟩) := by
            simpa using h
          subst hq'
          exact ⟨fun hm => Or.inl ⟨hm, rfl⟩, fun hr => Or.inl ⟨hr, rfl⟩⟩
  · intro st r hinv
    unfold wordStep
    dsimp only
    by_cases hne : (pstrip r.nameText).isEmpty = true
    · rw [if_pos hne]
      exact hinv
    · rw [if_neg hne]
      cases hlk : st.studentDetails.lookup (processWordName (pstrip r.nameText)) with
      | none =>
        apply flagsSubsetIndex_update st _ (processWordName (pstrip r.nameText)) _ _
          rfl rfl ?_ hinv
        intro q hq
        dsimp only at hq
        rcases List.mem_append.mp hq with h | h
        · exact ⟨fun hm => Or.inr ⟨q, h, rfl, hm⟩, fun hr => Or.inr ⟨q, h, rfl, hr⟩⟩
        · have hq' : q = (processWordName (pstrip r.nameText),
              ⟨processWordName (pstrip r.nameText), S "N/A", S "N/A",
                wordAigTokens.contains (upperStr (pstrip r.readingText)),
                wordAigTokens.contains (upperStr (pstrip r.mathText))⟩) := by
            simpa using h
          subst hq'
          exact ⟨fun hm => Or.inl ⟨hm, rfl⟩, fun hr => Or.inl ⟨hr, rfl⟩⟩
      | some info =>
        apply flagsSubsetIndex_update st _ (processWordName (pstrip r.nameText)) _ _
          rfl rfl ?_ hinv
        intro q hq
        dsimp only at hq
        unfold updEntry at hq
        obtain ⟨q0, hq0, hfq⟩ := List.mem_map.mp hq
        by_cases hqk : (q0.1 == processWordName (pstrip r.nameText)) = true
        · rw [if_pos hqk] at hfq
          have hk : q0.1 = processWordName (pstrip r.nameText) := by simpa using hqk
          subst hfq
          refine ⟨fun hm => ?_, fun hr => ?_⟩
          · rcases Bool.or_eq_true _ _ |>.mp hm with h | h
            · exact Or.inr ⟨q0, hq0, rfl, h⟩
            · exact Or.inl ⟨h, hk⟩
          · rcases Bool.or_eq_true _ _ |>.mp hr with h | h
            · exact Or.inr ⟨q0, hq0, rfl, h⟩
            · exact Or.inl ⟨h, hk⟩
        · rw [if_neg hqk] at hfq
          subst hfq
          exact ⟨fun hm => Or.inr ⟨q0, hq0, rfl, hm⟩, fun hr => Or.inr ⟨q0, hq0, rfl, hr⟩⟩

/-- C5 witness: the inclusion invariant instantiated on a concrete state and
step. -/
theorem C5_flags_subset_index_witness :
    flagsSubsetIndex (pdfStep (pdfStep initState (S "Smith, John 123456789 3 TD -"))
      (S "Smith, John 123456789 3 - TD")) :=
  C5_flags_subset_index.2.1 (pdfStep initState (S "Smith, John 123456789 3 TD -"))
    (S "Smith, John 123456789 3 - TD")
    (C5_flags_subset_index.2.1 initState (S "Smith, John 123456789 3 TD -")
      C5_flags_subset_index.1)

/-- Whitespace characters are not letters. -/
theorem isAlphaC_of_isSp (c : Nat) (h : isSp c = true) : isAlphaC c = false := by
  simp only [isSp, decide_eq_true_eq] at h
  simp only [isAlphaC, decide_eq_false_iff_not]
  omega

/-- Uppercasing is idempotent. -/
theorem toUpperC_toUpperC (c : Nat) : toUpperC (toUpperC c) = toUpperC c := by
  unfold toUpperC
  split
  next h => rw [if_neg (by omega)]
  next h => rfl

/-- Lowercasing is idempotent. -/
theorem toLowerC_toLowerC (c : Nat) : toLowerC (toLowerC c) = toLowerC c := by
  unfold toLowerC
  split
  next h => rw [if_neg (by omega)]
  next h => rfl

/-- Uppercasing preserves letterhood. -/
theorem isAlphaC_toUpperC (c : Nat) : isAlphaC (toUpperC c) = isAlphaC c := by
  unfold toUpperC
  split
  next h =>
    simp only [isAlphaC]
    rw [decide_eq_decide]
    omega
  next h => rfl

/-- Lowercasing preserves letterhood. -/
theorem isAlphaC_toLowerC (c : Nat) : isAlphaC (toLowerC c) = isAlphaC c := by
  unfold toLowerC
  split
  next h =>
    simp only [isAlphaC]
    rw [decide_eq_decide]
    omega
  next h => rfl

/-- Uppercasing preserves whitespace-ness. -/
theorem isSp_toUpperC (c : Nat) : isSp (toUpperC c) = isSp c := by
  unfold toUpperC
  split
  next h =>
    simp only [isSp]
    rw [decide_eq_decide]
    omega
  next h => rfl

/-- Lowercasing preserves whitespace-ness. -/
theorem isSp_toLowerC (c : Nat) : isSp (toLowerC c) = isSp c := by
  unfold toLowerC
  split
  next h =>
    simp only [isSp]
    rw [decide_eq_decide]
    omega
  next h => rfl

/-- One title-casing step preserves whitespace-ness. -/
theorem isSp_titleChar (b : Bool) (c : Nat) : isSp (titleChar b c) = isSp c := by
  unfold titleChar
  split
  · split
    · exact isSp_toLowerC c
    · exact isSp_toUpperC c
  · rfl

/-- One title-casing step preserves letterhood. -/
theorem isAlphaC_titleChar (b : Bool) (c : Nat) : isAlphaC (titleChar b c) = isAlphaC c := by
  unfold titleChar
  split
  · split
    · exact isAlphaC_toLowerC c
    · exact isAlphaC_toUpperC c
  · rfl

/-- One title-casing step is idempotent. -/
theorem titleChar_titleChar (b : Bool) (c : Nat) :
    titleChar b (titleChar b c) = titleChar b c := by
  by_cases ha : isAlphaC c = true
  · cases b <;>
      simp [titleChar, ha, isAlphaC_toUpperC, isAlphaC_toLowerC,
        toUpperC_toUpperC, toLowerC_toLowerC]
  · have ha' : isAlphaC c = false := by simpa using ha
    simp [titleChar, ha']

/-- Title-casing preserves the whitespace profile of a string. -/
theorem titleAux_map_isSp (s : List Nat) : ∀ b, (titleAux b s).map isSp = s.map isSp := by
  induction s with
  | nil => intro b; rfl
  | cons c cs ih =>
    intro b
    simp only [titleAux, List.map_cons, isSp_titleChar, ih]

/-- Title-casing is idempotent (for any starting state). -/
theorem titleAux_idem (s : List Nat) : ∀ b, titleAux b (titleAux b s) = titleAux b s := by
  induction s with
  | nil => intro b; rfl
  | cons c cs ih =>
    intro b
    simp only [titleAux]
    rw [titleChar_titleChar, isAlphaC_titleChar, ih]

/-- Whitespace collapsing commutes with title-casing as long as the states
are compatible (inside a whitespace run the previous character cannot have
been a letter). -/
theorem collapseAux_titleAux_comm (s : List Nat) :
    ∀ prev inRun : Bool, (inRun = true → prev = false) →
      collapseAux inRun (titleAux prev s) = titleAux prev (collapseAux inRun s) := by
  induction s with
  | nil => intro prev inRun _; rfl
  | cons c cs ih =>
    intro prev inRun hinv
    by_cases hsp : isSp c = true
    · have hca : isAlphaC c = false := isAlphaC_of_isSp c hsp
      have hch : titleChar prev c = c := by simp [titleChar, hca]
      cases hr : inRun with
      | true =>
        have hprev : prev = false := hinv hr
        subst hprev
        simp [titleAux, collapseAux, hch, hca, hsp]
        exact ih false true (fun _ => rfl)
      | false =>
        have h32a : isAlphaC 32 = false := rfl
        have h32c : titleChar prev 32 = 32 := by simp [titleChar, h32a]
        simp [titleAux, collapseAux, hch, hca, hsp, h32a, h32c]
        exact ih false true (fun _ => rfl)
    · have hch : isSp (titleChar prev c) = false := by rw [isSp_titleChar]; simpa using hsp
      simp [titleAux, collapseAux, hsp, hch, isAlphaC_titleChar]
      exact ih (isAlphaC c) false (fun h => absurd h Bool.false_ne_true)

/-- Title-casing commutes with dropping leading whitespace (starting from the
initial state: whitespace resets the state to "previous not a letter"). -/
theorem dropWhile_titleAux (s : List Nat) :
    (titleAux false s).dropWhile isSp = titleAux false (s.dropWhile isSp) := by
  induction s with
  | nil => rfl
  | cons c cs ih =>
    by_cases hsp : isSp c = true
    · have hca : isAlphaC c = false := isAlphaC_of_isSp c hsp
      have hch : titleChar false c = c := by simp [titleChar, hca]
      simp only [titleAux, hch, hca, List.dropWhile_cons, hsp, if_true]
      exact ih
    · have hch : isSp (titleChar false c) = false := by rw [isSp_titleChar]; simpa using hsp
      simp [titleAux, List.dropWhile_cons, hsp, hch]

/-- A list whose head is not whitespace is untouched by whitespace
dropping. -/
theorem dropWhile_isSp_eq_self (l : List Nat)
    (h : ∀ c, l.head? = some c → isSp c = false) : l.dropWhile isSp = l := by
  cases l with
  | nil => rfl
  | cons a t => simp [List.dropWhile_cons, h a rfl]

/-- After dropping leading whitespace the head is not whitespace. -/
theorem head?_dropWhile_isSp (l : List Nat) :
    ∀ c, (l.dropWhile isSp).head? = some c → isSp c = false := by
  induction l with
  | nil => intro c hc; simp at hc
  | cons a t ih =>
    intro c hc
    by_cases h : isSp a = true
    · rw [List.dropWhile_cons, if_pos h] at hc
      exact ih c hc
    · rw [List.dropWhile_cons, if_neg h] at hc
      obtain rfl : a = c := by simpa using hc
      simpa using h

/-- A list whose last element is not whitespace is untouched by trailing
whitespace removal. -/
theorem dropTrailWs_eq_self (l : List Nat)
    (h : ∀ c, l.getLast? = some c → isSp c = false) : dropTrailWs l = l := by
  unfold dropTrailWs
  rw [dropWhile_isSp_eq_self l.reverse ?_, List.reverse_reverse]
  intro c hc
  apply h
  rwa [List.head?_reverse] at hc

/-- The last element after trailing whitespace removal is not whitespace. -/
theorem getLast?_dropTrailWs (l : List Nat) :
    ∀ c, (dropTrailWs l).getLast? = some c → isSp c = false := by
  intro c hc
  unfold dropTrailWs at hc
  rw [List.getLast?_reverse] at hc
  exact head?_dropWhile_isSp _ c hc

/-- Trailing whitespace removal yields a prefix of the input. -/
theorem dropTrailWs_initialSegment (l : List Nat) : dropTrailWs l <+: l := by
  refine List.reverse_suffix.mp ?_
  unfold dropTrailWs
  rw [List.reverse_reverse]
  exact ⟨l.reverse.takeWhile isSp, List.takeWhile_append_dropWhile isSp l.reverse⟩

/-- A prefix has the same head. -/
theorem head?_of_initialSegment {l1 l2 : List Nat} (h : l1 <+: l2) :
    ∀ c, l1.head? = some c → l2.head? = some c := by
  obtain ⟨t, rfl⟩ := h
  intro c hc
  cases l1 with
  | nil => simp at hc
  | cons a t1 => simpa using hc

/-- Collapsing whitespace preserves a non-whitespace head. -/
theorem head?_collapseAux (l : List Nat)
    (h : ∀ c, l.head? = some c → isSp c = false) :
    ∀ c, (collapseAux false l).head? = some c → isSp c = false := by
  cases l with
  | nil => intro c hc; simp [collapseAux] at hc
  | cons a t =>
    intro c hc
    have ha : isSp a = false := h a rfl
    simp only [collapseAux, ha, Bool.false_eq_true, if_false] at hc
    obtain rfl : a = c := by simpa using hc
    exact ha

/-- Collapsing a nonempty list whose last element is not whitespace yields a
nonempty list whose last element is not whitespace. -/
theorem collapse_ne_nil_and_last (l : List Nat) :
    ∀ b : Bool, l ≠ [] → (∀ c, l.getLast? = some c → isSp c = false) →
      collapseAux b l ≠ [] ∧
      ∀ c, (collapseAux b l).getLast? = some c → isSp c = false := by
  induction l with
  | nil => intro b h _; exact absurd rfl h
  | cons a t ih =>
    intro b _ h
    cases t with
    | nil =>
      have ha : isSp a = false := h a (by simp)
      constructor
      · simp [collapseAux, ha]
      · intro c hc
        simp only [collapseAux, ha, Bool.false_eq_true, if_false] at hc
        obtain rfl : a = c := by simpa using hc
        exact ha
    | cons a2 t2 =>
      have ht : ∀ c, (a2 :: t2).getLast? = some c → isSp c = false := by
        intro c hc
        exact h c (by rw [List.getLast?_cons_cons]; exact hc)
      by_cases hsp : isSp a = true
      · cases b with
        | true =>
          have hstep : collapseAux true (a :: a2 :: t2) = collapseAux true (a2 :: t2) := by
            rw [collapseAux, if_pos hsp, if_pos rfl]
          rw [hstep]
          exact ih true (by simp) ht
        | false =>
          have hstep : collapseAux false (a :: a2 :: t2) = 32 :: collapseAux true (a2 :: t2) := by
            rw [collapseAux, if_pos hsp, if_neg Bool.false_ne_true]
          obtain ⟨hne, hlast⟩ := ih true (by simp) ht
          obtain ⟨x, xs, hx⟩ := List.exists_cons_of_ne_nil hne
          rw [hstep]
          constructor
          · simp
          · intro c hc
            rw [hx, List.getLast?_cons_cons] at hc
            exact hlast c (by rw [hx]; exact hc)
      · have hstep : collapseAux b (a :: a2 :: t2) = a :: collapseAux false (a2 :: t2) := by
          rw [collapseAux, if_neg hsp]
        obtain ⟨hne, hlast⟩ := ih false (by simp) ht
        obtain ⟨x, xs, hx⟩ := List.exists_cons_of_ne_nil hne
        rw [hstep]
        constructor
        · simp
        · intro c hc
          rw [hx, List.getLast?_cons_cons] at hc
          exact hlast c (by rw [hx]; exact hc)

/-- Whitespace collapsing is idempotent (state-uniformly). -/
theorem collapseAux_idem (l : List Nat) :
    ∀ b, collapseAux b (collapseAux b l) = collapseAux b l := by
  induction l with
  | nil => intro b; rfl
  | cons c cs ih =>
    intro b
    by_cases hsp : isSp c = true
    · have h32 : isSp 32 = true := rfl
      cases b with
      | true =>
        simp only [collapseAux, hsp, if_true]
        exact ih true
      | false =>
        simp only [collapseAux, hsp, if_true, Bool.false_eq_true, if_false, h32]
        rw [ih true]
    · simp only [collapseAux, hsp, Bool.false_eq_true, if_false]
      rw [ih false]

/-- A non-whitespace head transfers along equality of whitespace profiles. -/
theorem head_ws_free_transfer {x y : List Nat} (hm : x.map isSp = y.map isSp)
    (hy : ∀ c, y.head? = some c → isSp c = false) :
    ∀ c, x.head? = some c → isSp c = false := by
  intro c hc
  have h1 : (x.map isSp).head? = some (isSp c) := by
    rw [List.head?_map, hc]
    rfl
  rw [hm, List.head?_map] at h1
  cases hy0 : y.head? with
  | none => rw [hy0] at h1; simp at h1
  | some d =>
    rw [hy0] at h1
    have h2 : isSp d = isSp c := by simpa using h1
    rw [← h2]
    exact hy d hy0

/-- A non-whitespace last element transfers along equality of whitespace
profiles. -/
theorem last_ws_free_transfer {x y : List Nat} (hm : x.map isSp = y.map isSp)
    (hy : ∀ c, y.getLast? = some c → isSp c = false) :
    ∀ c, x.getLast? = some c → isSp c = false := by
  have hrev : x.reverse.map isSp = y.reverse.map isSp := by
    rw [List.map_reverse, List.map_reverse, hm]
  intro c hc
  refine head_ws_free_transfer hrev (fun d hd => hy d ?_) c ?_
  · rwa [List.head?_reverse] at hd
  · rwa [List.head?_reverse]

/-- C9: `_normalize_name` is idempotent — stripping, whitespace collapsing
and title-casing applied a second time leave the result unchanged. -/
theorem C9_normalize_idempotent (x : List Nat) :
    normalizeName (normalizeName x) = normalizeName x := by
  unfold normalizeName titleStr collapseWs
  set s0 := pstrip x with hs0
  set m := collapseAux false s0 with hm
  have hs0head : ∀ c, s0.head? = some c → isSp c = false := by
    intro c hc
    exact head?_dropWhile_isSp x c
      (head?_of_initialSegment (dropTrailWs_initialSegment (x.dropWhile isSp)) c hc)
  have hs0last : ∀ c, s0.getLast? = some c → isSp c = false := by
    rw [hs0]
    exact getLast?_dropTrailWs _
  have hmhead : ∀ c, m.head? = some c → isSp c = false := by
    rw [hm]
    exact head?_collapseAux s0 hs0head
  have hmlast : ∀ c, m.getLast? = some c → isSp c = false := by
    by_cases hnil : s0 = []
    · intro c hc
      rw [hm, hnil] at hc
      simp [collapseAux] at hc
    · rw [hm]
      exact (collapse_ne_nil_and_last s0 false hnil hs0last).2
  have hmcoll : collapseAux false m = m := by
    rw [hm]
    exact collapseAux_idem s0 false
  set t := titleAux false m with ht
  have htmap : t.map isSp = m.map isSp := by
    rw [ht]
    exact titleAux_map_isSp m false
  have hthead := head_ws_free_transfer htmap hmhead
  have htlast := last_ws_free_transfer htmap hmlast
  have hstript : pstrip t = t := by
    unfold pstrip
    rw [dropWhile_isSp_eq_self t hthead, dropTrailWs_eq_self t htlast]
  have hcollt : collapseAux false t = t := by
    rw [ht, collapseAux_titleAux_comm m false false (fun h => absurd h Bool.false_ne_true),
      hmcoll]
  rw [hstript, hcollt, ht, titleAux_idem]
